import Mathlib

/-!
Verification of the trading logic of a small robo-advisor.

The repository fetches stock metadata and OHLCV history, persists them,
computes a two-moving-average crossover signal per symbol, and records
(but does not submit) market orders.  The logic verified here is the
pure decision logic of `alpaca_methods.py`, `utils/alpaca_methods.py`
and `data_update.py`; the brokerage, the market-data provider and the
database are external collaborators, so their responses appear as
explicit parameters (an `Except`/`Option` value standing for the call's
outcome).  Floating-point numbers are modelled by `ℚ`; a pandas `NaN`
is modelled by `none : Option ℚ`, and the pipeline's IEEE conventions
(comparisons with NaN are false, a nonzero float divided by zero is a
signed infinity) are encoded explicitly where the code relies on them.
A raised Python exception is modelled by `none` / `Except.error`.
-/

/-- Last value of `close.rolling(window=w).mean()`, as pandas computes it:
`NaN` (here `none`) when the series has fewer than `w` bars (the default
`min_periods` equals the window) or when the window is degenerate,
otherwise the mean of the last `w` close values. -/
def lastRollingMean (close : List ℚ) (w : ℕ) : Option ℚ :=
  if 1 ≤ w ∧ w ≤ close.length then
    some ((close.drop (close.length - w)).sum / (w : ℚ))
  else none

/-- Embeds `generate_trading_signal` of `alpaca_methods.py` (lines 115-134).
The input is the `Close` column of the data frame.  On an empty series
`short_ma.iloc[-1]` raises `IndexError` (modelled by `none`); otherwise
the function returns `HOLD` when either last moving average is NaN,
`BUY` when the last short MA is strictly above the last long MA, and
`SELL` otherwise. -/
def generate_trading_signal (close : List ℚ) (short_window long_window : ℕ) :
    Option String :=
  if close.isEmpty then none
  else
    match lastRollingMean close short_window, lastRollingMean close long_window with
    | some s, some l => some (if l < s then "BUY" else "SELL")
    | _, _ => some "HOLD"

namespace Utils

/-- Embeds `generate_trading_signal` of `utils/alpaca_methods.py`
(lines 107-126), whose body is character-for-character the body of the
copy in `alpaca_methods.py`. -/
def generate_trading_signal (close : List ℚ) (short_window long_window : ℕ) :
    Option String :=
  if close.isEmpty then none
  else
    match lastRollingMean close short_window, lastRollingMean close long_window with
    | some s, some l => some (if l < s then "BUY" else "SELL")
    | _, _ => some "HOLD"

end Utils

/-- Models `get_current_position` of `alpaca_methods.py` (lines 136-149):
the brokerage call's outcome is the explicit argument (`Except.ok q` when a
position of `q` shares is reported, `Except.error msg` when the call raises).
Every failing call — whether the message says the position does not exist or
anything else — falls into the `except` branch and returns `0.0`. -/
def get_current_position (broker : Except String ℚ) : ℚ :=
  match broker with
  | Except.ok q => q
  | Except.error _ => 0

/-- An `orders` audit row as written by `create_record_in_table` in
`execute_order`: the side and the quantity (the symbol is the caller's). -/
structure OrderRecord where
  order_type : String
  quantity : ℚ
deriving DecidableEq, Repr

/-- Embeds `execute_order` of `alpaca_methods.py` (lines 187-230).  The
current position is obtained through `get_current_position` from the
brokerage response; a BUY audit row is written when the signal is `BUY`
and the holding is ≤ 0, a SELL row when the signal is `SELL` and the
holding is > 0, and nothing is written otherwise (the brokerage
`submit_order` call itself is commented out in the source). -/
def execute_order (signal : String) (quantity : ℚ) (broker : Except String ℚ) :
    Option OrderRecord :=
  let current_qty := get_current_position broker
  if signal = "BUY" ∧ current_qty ≤ 0 then
    some ⟨"BUY", quantity⟩
  else if signal = "SELL" ∧ 0 < current_qty then
    some ⟨"SELL", quantity⟩
  else none

/-- Truncation toward zero, the semantics of Python's `int()` applied to a
float: `int(2.7) = 2`, `int(-2.7) = -2`. -/
def pyInt (q : ℚ) : ℤ :=
  if 0 ≤ q then ⌊q⌋ else ⌈q⌉

/-- Embeds `determine_order_quantity` of `alpaca_methods.py` (lines 168-185).
The argument `equity` is the result of `get_account_equity` (`none` when the
brokerage call failed, in which case the function returns 0 before any
arithmetic).  When the equity is available the function computes
`equity * risk_percent / 100 / stop_loss_distance`; a zero
`stop_loss_distance` makes the division raise `ZeroDivisionError`
(`Except.error`), and otherwise the quotient is truncated by `int(...)`. -/
def determine_order_quantity (equity : Option ℚ) (risk_percent stop_loss_distance : ℚ) :
    Except Unit ℤ :=
  match equity with
  | none => Except.ok 0
  | some e =>
    let risk_amount := e * (risk_percent / 100)
    if stop_loss_distance = 0 then Except.error ()
    else Except.ok (pyInt (risk_amount / stop_loss_distance))

/-- The data frame built in `fetch_and_process_symbol` from a symbol's stored
JSONB blob, after the `pd.to_numeric(..., errors=coerce)` coercion: whether
the lower-cased columns contain `close` and `volume`, and the two coerced
columns themselves, where `none` is a NaN (a missing or non-numeric cell). -/
structure StockFrame where
  hasClose : Bool
  hasVolume : Bool
  close : List (Option ℚ)
  volume : List (Option ℚ)
deriving DecidableEq, Repr

/-- The non-NaN entries of a column, as selected by pandas `dropna`. -/
def dropNA (xs : List (Option ℚ)) : List ℚ :=
  xs.filterMap id

/-- Column mean as pandas computes it: `dropna().mean()`, which is NaN
(`none`) when no non-NaN entry exists. -/
def naMean (xs : List (Option ℚ)) : Option ℚ :=
  let v := dropNA xs
  if v.length = 0 then none else some (v.sum / (v.length : ℚ))

/-- Column maximum as pandas computes it (`skipna` default): the maximum of
the non-NaN entries, NaN (`none`) when there are none. -/
def naMax (xs : List (Option ℚ)) : Option ℚ :=
  (dropNA xs).max?

/-- Column minimum as pandas computes it (`skipna` default). -/
def naMin (xs : List (Option ℚ)) : Option ℚ :=
  (dropNA xs).min?

/-- Float subtraction where NaN propagates. -/
def naSub (a b : Option ℚ) : Option ℚ :=
  match a, b with
  | some x, some y => some (x - y)
  | _, _ => none

/-- Float comparison `a > t`: false whenever `a` is NaN. -/
def naGT (a : Option ℚ) (t : ℚ) : Bool :=
  match a with
  | some x => decide (t < x)
  | none => false

/-- The float comparison `r / m > t` (`t > 0`) as the filter's numpy scalars
evaluate it: false when either operand is NaN; when `m = 0` the quotient is
`nan` (if `r = 0`, compares false) or a signed infinity (`+inf` exceeds `t`
iff `0 < r`); otherwise an exact quotient compared to `t`. -/
def naDivGT (r m : Option ℚ) (t : ℚ) : Bool :=
  match r, m with
  | some r, some m => if m = 0 then decide (0 < r) else decide (t < r / m)
  | _, _ => false

/-- Embeds `fetch_and_process_symbol` of `data_update.py` (lines 123-168),
textually identical to the copy in `alpaca_methods.py` (lines 51-96).  The
`record` argument is the outcome of `get_record_from_table "stock_data"`:
`none` when no record (or no `data` key) is found, `some none` when a record
exists but parsing or processing its blob raises (the exception is caught
and the symbol rejected), and `some (some sf)` when it parses to the frame
`sf`.  The symbol is returned (accepted) exactly when both required columns
exist, the mean volume exceeds 1,000,000 and the close range over mean close
exceeds 0.05; every other path returns `none`. -/
def fetch_and_process_symbol (record : Option (Option StockFrame)) (symbol : String) :
    Option String :=
  match record with
  | none => none
  | some none => none
  | some (some sf) =>
    if sf.hasClose ∧ sf.hasVolume then
      let avg_volume := naMean sf.volume
      let close_mean := naMean sf.close
      let price_range := naSub (naMax sf.close) (naMin sf.close)
      if naGT avg_volume 1000000 ∧ naDivGT price_range close_mean (5 / 100) then
        some symbol
      else none
    else none

/-- Embeds `filter_best_symbols` of `alpaca_methods.py` (lines 98-113).  The
per-symbol worker (`fetch_and_process_symbol` applied to the symbol's stored
record) is the parameter `f`.  `ThreadPoolExecutor.map` yields results in
the order of its input iterable, so `list(executor.map(f, symbols))` is the
sequential `symbols.map f`; the `None` entries are dropped and the survivors
returned through Python's `sorted`, i.e. in ascending order. -/
def filter_best_symbols (f : String → Option String) (symbols : List String) :
    List String :=
  let results := symbols.map f
  let best_symbols := results.filterMap id
  best_symbols.insertionSort (· ≤ ·)

namespace Utils

/-- Embeds `filter_best_symbols` of `utils/alpaca_methods.py` (lines 90-105):
the same bounded parallel map and `None`-dropping as the main copy, but the
result list is returned as collected, without the final `sorted`. -/
def filter_best_symbols (f : String → Option String) (symbols : List String) :
    List String :=
  let results := symbols.map f
  let best_symbols := results.filterMap id
  best_symbols

end Utils

/-- A tradable-asset record as mirrored into the `stock_assets` table by
`update_assets_in_db`. -/
structure Asset where
  symbol : String
  name : String
  exchange : String
  asset_class : String
deriving DecidableEq, Repr

/-- The `new_assets` list of `update_assets_in_db`: the brokerage assets
whose symbol is not among the symbols already stored. -/
def newAssets (assets db : List Asset) : List Asset :=
  assets.filter (fun a => !((db.map (fun r => r.symbol)).contains a.symbol))

/-- Embeds `update_assets_in_db` of `data_update.py` (lines 10-33).  The
brokerage universe `assets` and the stored `stock_assets` rows `db` are the
explicit state; an empty universe leaves the store untouched, and otherwise
the new assets are batch-inserted (appended). -/
def update_assets_in_db (assets db : List Asset) : List Asset :=
  if assets.isEmpty then db
  else db ++ newAssets assets db

/-- A stored frame the liquidity/volatility filter accepts: two bars with
closes 100 and 200 (range 100, mean 150, ratio 2/3 > 0.05) and mean volume
2,000,000 > 1,000,000. -/
def goodFrame : StockFrame :=
  ⟨true, true, [some 100, some 200], [some 2000000]⟩

lemma goodFrame_accepted (symbol : String) :
    fetch_and_process_symbol (some (some goodFrame)) symbol = some symbol := by
  simp only [fetch_and_process_symbol, goodFrame, naGT, naDivGT, naSub, naMax, naMin,
    naMean, dropNA, List.filterMap_cons, List.filterMap_nil, id, List.max?, List.min?,
    List.foldl, List.sum_cons, List.sum_nil, List.length]
  norm_num

/-- C10: the copy of `generate_trading_signal` in `utils/alpaca_methods.py`
and the copy in `alpaca_methods.py` are extensionally equal: on every price
series and every window pair they produce the same outcome. -/
theorem signal_copies_agree (close : List ℚ) (short_window long_window : ℕ) :
    Utils.generate_trading_signal close short_window long_window =
      generate_trading_signal close short_window long_window :=
  rfl

/-- C2: with the brokerage reporting a held quantity `cur`, `execute_order`
writes a BUY order record exactly when the signal is `BUY` and `cur ≤ 0`,
writes a SELL order record exactly when the signal is `SELL` and `cur > 0`,
and in every other combination (in particular for signal `HOLD`) writes
nothing. -/
theorem execute_order_decision (signal : String) (q cur : ℚ) :
    (execute_order signal q (Except.ok cur) = some ⟨"BUY", q⟩ ↔
      signal = "BUY" ∧ cur ≤ 0) ∧
    (execute_order signal q (Except.ok cur) = some ⟨"SELL", q⟩ ↔
      signal = "SELL" ∧ 0 < cur) ∧
    (execute_order signal q (Except.ok cur) = none ↔
      ¬(signal = "BUY" ∧ cur ≤ 0) ∧ ¬(signal = "SELL" ∧ 0 < cur)) := by
  have hgp : get_current_position (Except.ok cur) = cur := rfl
  by_cases h1 : signal = "BUY" ∧ cur ≤ 0 <;>
    by_cases h2 : signal = "SELL" ∧ 0 < cur
  · exact absurd (h1.1 ▸ h2.1) (by simp)
  all_goals simp [execute_order, hgp, h1, h2]

/-- C9: `get_current_position` returns `0.0` on every failing brokerage
call, whatever the error; such a failure is therefore indistinguishable
from a reported flat position, and `execute_order` on a BUY signal records
a BUY order whenever the position call fails — whatever position the
account actually holds. -/
theorem position_error_reads_flat (err : String) (q : ℚ) :
    get_current_position (Except.error err) = 0 ∧
    get_current_position (Except.error err) = get_current_position (Except.ok 0) ∧
    execute_order "BUY" q (Except.error err) = some ⟨"BUY", q⟩ := by
  refine ⟨rfl, rfl, ?_⟩
  simp [execute_order, get_current_position]

/-- C4: with a retrievable equity and a zero stop-loss distance the division
in `determine_order_quantity` raises an unhandled `ZeroDivisionError`
(modelled by `Except.error`) instead of producing a quantity — for every
equity and every risk percentage. -/
theorem stop_loss_zero_raises (e rp : ℚ) :
    determine_order_quantity (some e) rp 0 = Except.error () := by
  simp [determine_order_quantity]

/-- C3 counterexample: at equity −101, risk percent 1 and stop-loss
distance 2 the computed quantity is −0.505; Python's `int()` truncates it
to 0 while the floor claimed by the spec is −1, so `determine_order_quantity`
does not return the floor on this retrievable equity. -/
theorem order_quantity_not_floor :
    determine_order_quantity (some (-101)) 1 2 = Except.ok 0 ∧
    ⌊(-101 : ℚ) * (1 / 100) / 2⌋ = -1 ∧
    determine_order_quantity (some (-101)) 1 2 ≠
      Except.ok ⌊(-101 : ℚ) * (1 / 100) / 2⌋ := by
  have h1 : determine_order_quantity (some (-101)) 1 2 = Except.ok 0 := by
    norm_num [determine_order_quantity, pyInt]
  have h2 : ⌊(-101 : ℚ) * (1 / 100) / 2⌋ = -1 := by
    rw [show ((-101 : ℚ) * (1 / 100) / 2) = -101 / 200 by norm_num, Int.floor_eq_iff]
    norm_num
  refine ⟨h1, h2, ?_⟩
  rw [h1, h2]
  simp

/-- C3 (amended): whenever the equity is retrievable, the risk percentage
makes `equity * risk_percent` nonnegative and the stop-loss distance is
positive, `determine_order_quantity` returns
`⌊equity * risk_percent / 100 / stop_loss_distance⌋` (the truncation of a
nonnegative quotient is its floor); it returns 0 whenever the equity could
not be retrieved. -/
theorem order_quantity_floor (e rp sld : ℚ) (hprod : 0 ≤ e * rp) (hsld : 0 < sld) :
    determine_order_quantity (some e) rp sld = Except.ok ⌊e * (rp / 100) / sld⌋ ∧
    determine_order_quantity none rp sld = Except.ok 0 := by
  constructor
  · have hnum : 0 ≤ e * (rp / 100) := by
      rw [← mul_div_assoc]
      exact div_nonneg hprod (by norm_num)
    have hq : 0 ≤ e * (rp / 100) / sld := div_nonneg hnum hsld.le
    simp [determine_order_quantity, pyInt, hsld.ne', hq]
  · rfl

/-- C3 witness: the theorem applied at equity 100000, risk percent 1 and
stop-loss distance 2 yields the spec's example quantity 500. -/
theorem order_quantity_floor_witness :
    determine_order_quantity (some 100000) 1 2 = Except.ok 500 := by
  have h := (order_quantity_floor 100000 1 2 (by norm_num) (by norm_num)).1
  rw [h]
  rw [show ((100000 : ℚ) * (1 / 100) / 2) = 500 by norm_num]
  norm_num

/-- C1 counterexample: on the empty price series (which has fewer than
`long_window` bars) the signal generator does not return `HOLD`: the
`iloc[-1]` lookup on the empty rolling series raises `IndexError`
(modelled by `none`). -/
theorem signal_empty_series_raises :
    generate_trading_signal [] 2 3 = none ∧
    generate_trading_signal [] 2 3 ≠ some "HOLD" := by
  constructor
  · rfl
  · intro h
    simp [generate_trading_signal] at h

/-- C1 (amended): on every nonempty price series, `generate_trading_signal`
returns `HOLD` when the most recent short or long moving average is
undefined — in particular whenever the series has fewer than `long_window`
bars — and otherwise returns `BUY` when the last short MA strictly exceeds
the last long MA and `SELL` in every other case, including exact equality
of the two averages. -/
theorem signal_decision (close : List ℚ) (s l : ℕ) (h : close ≠ []) :
    ((lastRollingMean close s = none ∨ lastRollingMean close l = none) →
      generate_trading_signal close s l = some "HOLD") ∧
    (∀ a b : ℚ, lastRollingMean close s = some a → lastRollingMean close l = some b →
      generate_trading_signal close s l = some (if b < a then "BUY" else "SELL")) ∧
    (close.length < l → generate_trading_signal close s l = some "HOLD") ∧
    (∀ a : ℚ, lastRollingMean close s = some a → lastRollingMean close l = some a →
      generate_trading_signal close s l = some "SELL") := by
  have hne : close.isEmpty = false := by simpa [List.isEmpty_iff] using h
  have hlong : close.length < l → lastRollingMean close l = none := by
    intro hlen
    rw [lastRollingMean, if_neg]
    omega
  refine ⟨?_, ?_, ?_, ?_⟩
  · rintro (hs | hl)
    · simp [generate_trading_signal, hne, hs]
    · rw [generate_trading_signal]
      cases hsv : lastRollingMean close s <;> simp [hne, hl, hsv]
  · intro a b hsv hlv
    simp [generate_trading_signal, hne, hsv, hlv]
  · intro hlen
    rw [generate_trading_signal]
    cases hsv : lastRollingMean close s <;> simp [hne, hlong hlen, hsv]
  · intro a hsv hlv
    simp [generate_trading_signal, hne, hsv, hlv]

/-- C1 witness: the theorem applied to the three-bar series `[1, 2, 3]`
with `long_window = 4` yields `HOLD`. -/
theorem signal_decision_witness :
    generate_trading_signal [1, 2, 3] 2 4 = some "HOLD" :=
  (signal_decision [1, 2, 3] 2 4 (by simp)).2.2.1 (by norm_num)

/-- C7: syncing the tradable-asset universe a second time with the universe
unchanged inserts zero new rows (`new_assets` is empty) and leaves the
stored `stock_assets` rows exactly as after the first run — for every
universe and every starting database state. -/
theorem update_assets_idempotent (assets db : List Asset) :
    update_assets_in_db assets (update_assets_in_db assets db) =
      update_assets_in_db assets db ∧
    newAssets assets (update_assets_in_db assets db) = [] := by
  by_cases hA : assets.isEmpty
  · have hnil : assets = [] := by simpa [List.isEmpty_iff] using hA
    subst hnil
    simp [update_assets_in_db, newAssets]
  · have hfirst : update_assets_in_db assets db = db ++ newAssets assets db := by
      simp [update_assets_in_db, hA]
    have key : newAssets assets (db ++ newAssets assets db) = [] := by
      rw [newAssets]
      rw [List.filter_eq_nil_iff]
      intro a ha
      simp only [Bool.not_eq_true', Bool.not_eq_true, Bool.not_not]
      have hmem : a.symbol ∈ (db ++ newAssets assets db).map (fun r => r.symbol) := by
        rw [List.map_append, List.mem_append]
        by_cases hdb : a.symbol ∈ db.map (fun r => r.symbol)
        · exact Or.inl hdb
        · refine Or.inr (List.mem_map_of_mem _ ?_)
          rw [newAssets, List.mem_filter]
          refine ⟨ha, ?_⟩
          simpa using hdb
      intro hcf
      have h' : ((db ++ newAssets assets db).map (fun r => r.symbol)).contains a.symbol
          = true := by
        simpa [List.contains] using List.elem_eq_true_of_mem hmem
      rw [hcf] at h'
      exact Bool.false_ne_true h'
    constructor
    · conv_lhs => rw [update_assets_in_db, if_neg (by simpa using hA)]
      rw [hfirst, key, List.append_nil]
    · rw [hfirst]
      exact key

/-- C8 counterexample: with both symbols accepted by the filter, the
`filter_best_symbols` of `alpaca_methods.py` applied to `["B", "A"]`
returns `["A", "B"]` — Python's `sorted` output — while the sequential map
followed by dropping rejected entries yields `["B", "A"]`, so the result
order does not correspond to the input order. -/
theorem filter_best_not_input_order :
    filter_best_symbols
        (fun s => fetch_and_process_symbol (some (some goodFrame)) s) ["B", "A"]
      = ["A", "B"] ∧
    (["B", "A"].filterMap
        (fun s => fetch_and_process_symbol (some (some goodFrame)) s))
      = ["B", "A"] ∧
    (["A", "B"] : List String) ≠ ["B", "A"] := by
  refine ⟨?_, ?_, by decide⟩
  · simp only [filter_best_symbols, List.map_cons, List.map_nil, goodFrame_accepted,
      List.filterMap_cons, List.filterMap_nil, id, List.insertionSort,
      List.orderedInsert]
    rw [if_neg (by simp +decide)]
  · simp [goodFrame_accepted]

/-- C8 (amended): the bounded parallel map is result-equivalent to the
sequential per-symbol map; dropping the rejected entries, the copy of
`filter_best_symbols` in `utils/alpaca_methods.py` returns exactly the
accepted symbols in input order, while the copy in `alpaca_methods.py`
returns the same multiset of accepted symbols sorted ascending rather than
in input order; a single symbol's rejection only removes that symbol's
entry, leaving the results of the symbols around it unchanged. -/
theorem filter_best_characterized (f : String → Option String) (symbols : List String) :
    Utils.filter_best_symbols f symbols = symbols.filterMap f ∧
    (filter_best_symbols f symbols).Perm (symbols.filterMap f) ∧
    List.Sorted (· ≤ ·) (filter_best_symbols f symbols) ∧
    (∀ s, s ∈ filter_best_symbols f symbols ↔ ∃ t ∈ symbols, f t = some s) ∧
    (∀ pre b post, Utils.filter_best_symbols f (pre ++ b :: post) =
      Utils.filter_best_symbols f pre ++ (f b).toList ++
        Utils.filter_best_symbols f post) := by
  have hutils : ∀ L : List String, Utils.filter_best_symbols f L = L.filterMap f := by
    intro L
    simp [Utils.filter_best_symbols, List.filterMap_map]
  have hperm : (filter_best_symbols f symbols).Perm (symbols.filterMap f) := by
    have h := List.perm_insertionSort (α := String) (· ≤ ·)
      ((symbols.map f).filterMap id)
    simpa [filter_best_symbols, List.filterMap_map] using h
  refine ⟨hutils symbols, hperm, ?_, ?_, ?_⟩
  · exact List.sorted_insertionSort _ _
  · intro s
    rw [hperm.mem_iff, List.mem_filterMap]
  · intro pre b post
    rw [hutils, hutils, hutils, List.filterMap_append, List.filterMap_cons]
    cases hb : f b <;> simp [hb]

lemma dropNA_replicate (n : ℕ) (c : ℚ) :
    dropNA (List.replicate n (some c)) = List.replicate n c := by
  induction n with
  | zero => rfl
  | succ m ih =>
    simp only [List.replicate_succ, dropNA, List.filterMap_cons, id] at ih ⊢
    rw [ih]

lemma foldl_max_replicate (m : ℕ) (c : ℚ) :
    List.foldl max c (List.replicate m c) = c := by
  induction m with
  | zero => rfl
  | succ k ih => simp only [List.replicate_succ, List.foldl_cons, max_self, ih]

lemma foldl_min_replicate (m : ℕ) (c : ℚ) :
    List.foldl min c (List.replicate m c) = c := by
  induction m with
  | zero => rfl
  | succ k ih => simp only [List.replicate_succ, List.foldl_cons, min_self, ih]

lemma constant_close_rejected (sf : StockFrame) (n : ℕ) (c : ℚ) (symbol : String)
    (hc : sf.close = List.replicate n (some c)) :
    fetch_and_process_symbol (some (some sf)) symbol = none := by
  rw [fetch_and_process_symbol]
  by_cases hcols : sf.hasClose ∧ sf.hasVolume
  · rw [if_pos hcols]
    have hdiv : naDivGT (naSub (naMax sf.close) (naMin sf.close)) (naMean sf.close)
        (5 / 100) = false := by
      rw [hc]
      cases n with
      | zero => rfl
      | succ m =>
        have hmax : naMax (List.replicate (m + 1) (some c)) = some c := by
          rw [naMax, dropNA_replicate, List.replicate_succ]
          show some (List.foldl max c (List.replicate m c)) = some c
          rw [foldl_max_replicate]
        have hmin : naMin (List.replicate (m + 1) (some c)) = some c := by
          rw [naMin, dropNA_replicate, List.replicate_succ]
          show some (List.foldl min c (List.replicate m c)) = some c
          rw [foldl_min_replicate]
        rw [hmax, hmin]
        have hsub : naSub (some c) (some c) = some 0 := by simp [naSub]
        rw [hsub]
        cases hm : naMean (List.replicate (m + 1) (some c)) with
        | none => rfl
        | some m0 =>
          by_cases hm0 : m0 = 0
          · simp [naDivGT, hm0]
          · simp only [naDivGT, if_neg hm0, zero_div]
            norm_num
    rw [if_neg]
    intro hcrit
    rw [hdiv] at hcrit
    exact Bool.false_ne_true hcrit.2
  · rw [if_neg hcols]

/-- C5: `fetch_and_process_symbol` accepts a symbol exactly when a stored
record parses to a frame carrying both required columns whose mean volume
exceeds 1,000,000 and whose close range over mean close exceeds 0.05
(ratios evaluated with the pipeline's float conventions); a missing record,
a processing error, or a missing required column each yield `None` without
aborting, the only non-`None` result is the symbol itself, and a series
with constant close price is rejected regardless of volume. -/
theorem filter_acceptance (record : Option (Option StockFrame)) (symbol : String) :
    (fetch_and_process_symbol record symbol = some symbol ↔
      ∃ sf, record = some (some sf) ∧ sf.hasClose = true ∧ sf.hasVolume = true ∧
        naGT (naMean sf.volume) 1000000 = true ∧
        naDivGT (naSub (naMax sf.close) (naMin sf.close)) (naMean sf.close)
          (5 / 100) = true) ∧
    (∀ r, fetch_and_process_symbol record symbol = some r → r = symbol) ∧
    (fetch_and_process_symbol none symbol = none) ∧
    (fetch_and_process_symbol (some none) symbol = none) ∧
    (∀ sf, record = some (some sf) → ¬(sf.hasClose = true ∧ sf.hasVolume = true) →
      fetch_and_process_symbol record symbol = none) ∧
    (∀ sf n c, record = some (some sf) → sf.close = List.replicate n (some c) →
      fetch_and_process_symbol record symbol = none) := by
  refine ⟨?_, ?_, rfl, rfl, ?_, ?_⟩
  · match record with
    | none => simp [fetch_and_process_symbol]
    | some none => simp [fetch_and_process_symbol]
    | some (some sf) =>
      rw [fetch_and_process_symbol]
      by_cases hcols : sf.hasClose ∧ sf.hasVolume
      · rw [if_pos hcols]
        by_cases hcrit :
            naGT (naMean sf.volume) 1000000 ∧
              naDivGT (naSub (naMax sf.close) (naMin sf.close)) (naMean sf.close)
                (5 / 100)
        · rw [if_pos hcrit]
          simp [hcols.1, hcols.2, hcrit.1, hcrit.2]
        · rw [if_neg hcrit]
          constructor
          · intro hcontra
            exact Option.noConfusion hcontra
          · rintro ⟨sf', hsf', -, -, hvol, hdiv⟩
            rw [Option.some.injEq, Option.some.injEq] at hsf'
            subst hsf'
            exact absurd ⟨hvol, hdiv⟩ hcrit
      · rw [if_neg hcols]
        constructor
        · intro hcontra
          exact Option.noConfusion hcontra
        · rintro ⟨sf', hsf', hc1, hc2, -, -⟩
          rw [Option.some.injEq, Option.some.injEq] at hsf'
          subst hsf'
          exact absurd ⟨hc1, hc2⟩ hcols
  · intro r hr
    match record with
    | none => exact Option.noConfusion hr
    | some none => exact Option.noConfusion hr
    | some (some sf) =>
      rw [fetch_and_process_symbol] at hr
      dsimp only at hr
      split_ifs at hr
      exact (Option.some.inj hr).symm
  · rintro sf rfl hcols
    rw [fetch_and_process_symbol, if_neg hcols]
  · rintro sf n c rfl hc
    exact constant_close_rejected sf n c symbol hc

/-- C5 witness: a stored frame with ample volume but constant close price 5
over three bars is rejected, as the theorem's constant-close clause states
at this concrete input. -/
theorem filter_acceptance_witness :
    fetch_and_process_symbol
      (some (some ⟨true, true, [some 5, some 5, some 5], [some 2000000]⟩)) "ACME"
      = none :=
  (filter_acceptance
      (some (some ⟨true, true, [some 5, some 5, some 5], [some 2000000]⟩))
      "ACME").2.2.2.2.2 _ 3 5 rfl rfl

lemma sum_lt_length_mul (A : List ℚ) (m : ℚ) (hA : A ≠ []) (h : ∀ x ∈ A, x < m) :
    A.sum < (A.length : ℚ) * m := by
  induction A with
  | nil => exact absurd rfl hA
  | cons a tl ih =>
    rcases eq_or_ne tl [] with h0 | h0
    · subst h0
      simpa using h a (by simp)
    · have ha := h a (by simp)
      have htl := ih h0 (fun x hx => h x (List.mem_cons_of_mem _ hx))
      simp only [List.sum_cons, List.length_cons]
      push_cast
      linarith

lemma length_mul_lt_sum (A : List ℚ) (m : ℚ) (hA : A ≠ []) (h : ∀ x ∈ A, m < x) :
    (A.length : ℚ) * m < A.sum := by
  induction A with
  | nil => exact absurd rfl hA
  | cons a tl ih =>
    rcases eq_or_ne tl [] with h0 | h0
    · subst h0
      simpa using h a (by simp)
    · have ha := h a (by simp)
      have htl := ih h0 (fun x hx => h x (List.mem_cons_of_mem _ hx))
      simp only [List.sum_cons, List.length_cons]
      push_cast
      linarith

lemma suffix_mean_gt (B : List ℚ) (s : ℕ) (hs : 1 ≤ s) (hsl : s < B.length)
    (hmono : B.Pairwise (· < ·)) :
    B.sum / (B.length : ℚ) < (B.drop (B.length - s)).sum / (s : ℚ) := by
  set k := B.length - s with hk
  have hkpos : 1 ≤ k := by omega
  have hF : (B.take k).length = k := by
    rw [List.length_take]
    omega
  have hS : (B.drop k).length = s := by
    rw [List.length_drop]
    omega
  have hsplit := List.take_append_drop k B
  have hpw : (B.take k ++ B.drop k).Pairwise (· < ·) := by
    rw [hsplit]
    exact hmono
  rw [List.pairwise_append] at hpw
  obtain ⟨-, -, hcross⟩ := hpw
  have hSne : B.drop k ≠ [] := by
    intro hnil
    rw [hnil, List.length_nil] at hS
    omega
  have hFne : B.take k ≠ [] := by
    intro hnil
    rw [hnil, List.length_nil] at hF
    omega
  have hspos : (0 : ℚ) < (s : ℚ) := by
    exact_mod_cast Nat.lt_of_lt_of_le Nat.zero_lt_one hs
  have hm : ∀ x ∈ B.take k, x < (B.drop k).sum / (s : ℚ) := by
    intro x hx
    have h1 : ((B.drop k).length : ℚ) * x < (B.drop k).sum :=
      length_mul_lt_sum _ x hSne (fun y hy => hcross x hx y hy)
    rw [hS] at h1
    rw [lt_div_iff₀ hspos]
    linarith
  have hFsum : (B.take k).sum < (k : ℚ) * ((B.drop k).sum / (s : ℚ)) := by
    have h2 := sum_lt_length_mul _ _ hFne hm
    rwa [hF] at h2
  have hBsum : B.sum = (B.take k).sum + (B.drop k).sum := by
    conv_lhs => rw [← hsplit]
    rw [List.sum_append]
  have hlen : (B.length : ℚ) = (k : ℚ) + (s : ℚ) := by
    have : B.length = k + s := by omega
    exact_mod_cast this
  have hlpos : (0 : ℚ) < (B.length : ℚ) := by
    have : 0 < B.length := by omega
    exact_mod_cast this
  rw [div_lt_div_iff₀ hlpos hspos, hBsum, hlen]
  have h3 : ((k : ℚ) * ((B.drop k).sum / (s : ℚ))) * (s : ℚ) = k * (B.drop k).sum := by
    field_simp
  have h4 : (B.take k).sum * (s : ℚ) < (k : ℚ) * (B.drop k).sum := by
    calc (B.take k).sum * (s : ℚ)
        < ((k : ℚ) * ((B.drop k).sum / (s : ℚ))) * (s : ℚ) :=
          mul_lt_mul_of_pos_right hFsum hspos
      _ = (k : ℚ) * (B.drop k).sum := h3
  nlinarith [h4]

/-- C6: on every strictly increasing close series with at least
`long_window` bars (windows positive, `short_window < long_window`) both
last moving averages are defined, the last short MA strictly exceeds the
last long MA, and `generate_trading_signal` returns `BUY`. -/
theorem increasing_series_buy (close : List ℚ) (s l : ℕ)
    (hs : 1 ≤ s) (hsl : s < l) (hl : l ≤ close.length)
    (hmono : close.Pairwise (· < ·)) :
    ∃ a b : ℚ, lastRollingMean close s = some a ∧ lastRollingMean close l = some b ∧
      b < a ∧ generate_trading_signal close s l = some "BUY" := by
  have hsa : lastRollingMean close s =
      some ((close.drop (close.length - s)).sum / (s : ℚ)) := by
    rw [lastRollingMean, if_pos ⟨hs, by omega⟩]
  have hlb : lastRollingMean close l =
      some ((close.drop (close.length - l)).sum / (l : ℚ)) := by
    rw [lastRollingMean, if_pos ⟨by omega, hl⟩]
  set B := close.drop (close.length - l) with hB
  have hBlen : B.length = l := by
    rw [hB, List.length_drop]
    omega
  have hBmono : B.Pairwise (· < ·) :=
    List.Pairwise.sublist (List.drop_sublist _ _) hmono
  have hdrop : B.drop (B.length - s) = close.drop (close.length - s) := by
    rw [hB, List.drop_drop]
    congr 1
    rw [hBlen]
    omega
  have hmain := suffix_mean_gt B s hs (by omega) hBmono
  rw [hdrop, hBlen] at hmain
  refine ⟨_, _, hsa, hlb, hmain, ?_⟩
  have hne : close.isEmpty = false := by
    have h0 : close ≠ [] := by
      intro h0
      rw [h0] at hl
      simp at hl
      omega
    simpa [List.isEmpty_iff] using h0
  rw [generate_trading_signal, hne, hsa, hlb]
  simp only [Bool.false_eq_true, if_false]
  rw [if_pos hmain]

/-- C6 witness: the theorem applied to the strictly increasing series
`[1, 2, 3]` with windows 1 and 2. -/
theorem increasing_series_buy_witness :
    ∃ a b : ℚ, lastRollingMean [1, 2, 3] 1 = some a ∧
      lastRollingMean [1, 2, 3] 2 = some b ∧ b < a ∧
      generate_trading_signal [1, 2, 3] 1 2 = some "BUY" :=
  increasing_series_buy [1, 2, 3] 1 2 (by norm_num) (by norm_num) (by norm_num)
    (by norm_num [List.pairwise_cons])

